import Mathlib

set_option maxRecDepth 16000

/-
Verification of the core logic of the WhatsApp expense tracker (src/app.py).

The development shallowly embeds the two components with real logic:

* `parse_expense`  (app.py:84-100)  - the free-text expense parser, built on
  two Python regular expressions applied to the stripped message text;
* `get_summary`    (app.py:121-171) - the summary engine filtering ledger rows
  by date window and aggregating amounts per category;

together with the failure policy of `categorize_expense` (app.py:67-81) and
the date / float parsing helpers those functions rely on
(`datetime.strptime(.., "%Y-%m-%d")` and `float(..)`).

Modelling conventions:

* Python `float` values are IEEE-754 binary64 doubles.  They are modelled as
  the rationals (`ℚ`) that binary64 values denote: parsing a decimal literal
  rounds its exact value to the nearest double (`roundDouble`, ties to even,
  as CPython's correctly-rounded `strtod` does), and every `+=` performed by
  `get_summary` is a rounded double addition (`fladd`).  Overflow to
  infinity and gradual underflow are outside the modelled fragment - the
  amounts this application handles stay far inside the normal range.
* Characters are treated in the ASCII fragment: `\d` is `0`-`9`, `\s` is the
  six ASCII whitespace characters, `str.strip()` strips those.
* `float(..)` raising an uncaught `ValueError` inside `parse_expense` is made
  observable as the dedicated result `ParseResult.raised`.
* Collaborators (the Gemini model, the Google-Sheets ledger) are passed in as
  explicit arguments describing their observable behaviour for the call:
  `Except Unit String` for the model, `LedgerRead` for the sheet.
-/

/-! ## Character classes (ASCII fragment of Python `\s`, `\d`, `[\d.]`) -/

/-- ASCII whitespace, as matched by Python `\s` and stripped by `str.strip()`. -/
def isPySpace (c : Char) : Bool :=
  c == ' ' || c == '\t' || c == '\n' || c == '\r' || c == '\x0b' || c == '\x0c'

/-- The character class `[\d.]` of both regular expressions in `parse_expense`. -/
def isDigitDot (c : Char) : Bool :=
  c.isDigit || c == '.'

/-- Everything the regex metacharacter `.` matches: any character except `\n`. -/
def notNL (c : Char) : Bool :=
  c != '\n'

/-! ## `str.strip()` -/

/-- Python `str.strip()` on the character list of a string: drop whitespace
from the front, then from the back. -/
def pystripL (l : List Char) : List Char :=
  ((l.dropWhile isPySpace).reverse.dropWhile isPySpace).reverse

/-- Python `str.strip()`. -/
def pystrip (s : String) : String :=
  ⟨pystripL s.data⟩

/-! ## IEEE-754 binary64 rounding

Python floats are binary64 doubles.  A finite double is a rational, but the
operations round: `float(s)` returns the double nearest the decimal value of
`s`, and each `x += y` on floats rounds the exact sum to 53 significant
bits, ties to even.  `roundDouble` implements that rounding in the
unbounded-exponent fragment (no overflow to infinity, no gradual underflow;
this application's amounts never approach either). -/

/-- `2 ^ e` in `ℚ` for an integer exponent. -/
def pow2 (e : ℤ) : ℚ :=
  if 0 ≤ e then (2 : ℚ) ^ e.toNat else 1 / (2 : ℚ) ^ (-e).toNat

/-- Scale a positive rational into the binade `[1, 2)`: returns `(r, e)` with
`q = r * 2 ^ e` and `1 ≤ r < 2`.  The fuel argument bounds the number of
halvings / doublings performed; since `2 ^ n > n`, `q.num.natAbs + q.den`
always suffices (at most `log₂ num` halvings for `q ≥ 2`, at most
`log₂ den` doublings for `q < 1`). -/
def normalizeBinade : ℕ → ℚ → ℚ × ℤ
  | 0, q => (q, 0)
  | fuel + 1, q =>
      if q < 1 then
        let p := normalizeBinade fuel (2 * q)
        (p.1, p.2 - 1)
      else if 2 ≤ q then
        let p := normalizeBinade fuel (q / 2)
        (p.1, p.2 + 1)
      else (q, 0)

/-- Round a rational to the nearest IEEE-754 binary64 value, round to
nearest, ties to even (unbounded-exponent fragment): write `|q| = r * 2 ^ e`
with `r ∈ [1, 2)`, round the 53-bit scaled mantissa `r * 2 ^ 52` to an
integer half-to-even, and reattach sign and exponent. -/
def roundDouble (q : ℚ) : ℚ :=
  if q = 0 then 0
  else
    let a := if q < 0 then -q else q
    let p := normalizeBinade (a.num.natAbs + a.den) a
    let t := a / pow2 p.2 * (2 : ℚ) ^ 52
    let n := ⌊t⌋
    let m : ℤ := if t - n < 1 / 2 then n
      else if 1 / 2 < t - n then n + 1
      else if n % 2 = 0 then n else n + 1
    (if q < 0 then -1 else 1) * (m : ℚ) * pow2 (p.2 - 52)

/-- The float addition `x + y` performed by `get_summary`'s `+=`: exact sum,
then rounding to double precision. -/
def fladd (x y : ℚ) : ℚ :=
  roundDouble (x + y)

/-! ## Python `float(..)` on strings

`float` accepts surrounding whitespace, an optional sign, and a decimal
mantissa with at most one point and at least one digit, and raises
`ValueError` otherwise (modelled as `none`); the accepted value is the
decimal's exact value rounded to the nearest double.  This covers every
string the application can feed it apart from exponent / `inf` / `nan` /
underscore forms, which cannot be produced by the `[\d.]+` tokens of
`parse_expense` and do not occur in amount cells the app itself writes. -/

/-- Value of a list of decimal digit characters (most significant first). -/
def digitsToNat (l : List Char) : ℕ :=
  l.foldl (fun n c => 10 * n + (c.toNat - 48)) 0

/-- Python `float(s)` for a character list `s`, on the finite-decimal
fragment: `none` models `ValueError`. -/
def pyFloatL (l : List Char) : Option ℚ :=
  let t := pystripL l
  let su : ℚ × List Char :=
    match t with
    | '+' :: r => (1, r)
    | '-' :: r => (-1, r)
    | r => (1, r)
  let ip := su.2.takeWhile Char.isDigit
  match su.2.dropWhile Char.isDigit with
  | [] => if ip = [] then none else some (roundDouble (su.1 * digitsToNat ip))
  | '.' :: frac =>
      if frac.all Char.isDigit ∧ (ip ≠ [] ∨ frac ≠ []) then
        some (roundDouble
          (su.1 * ((digitsToNat ip : ℚ) + (digitsToNat frac : ℚ) / (10 : ℚ) ^ frac.length)))
      else none
  | _ => none

/-- Python `float(s)` for a string. -/
def pyFloat (s : String) : Option ℚ :=
  pyFloatL s.data

/-! ## The two regular expressions of `parse_expense`

`parse_expense` (app.py:84-100) strips the text and then tries

1. `re.search(r'(.+?)\s+([\d.]+)\s*$', s)`   ("description amount"), then
2. `re.search(r'^([\d.]+)\s+(.+)', s)`       ("amount description").

On an already stripped `s` the searches admit a direct characterisation,
proved by reading off the regex semantics:

* Pattern 1: `\s*$` can only match at the end of `s` (a stripped string has
  no trailing whitespace, and `$` only matches before a trailing newline or
  the end).  Group 2 must therefore be the maximal trailing run of `[\d.]`
  characters: it is preceded by a `\s` character, which is not in `[\d.]`.
  `\s+` sits inside the maximal whitespace run `W` preceding that token; the
  lazy group 1 cedes the whole of `W` to `\s+`.  `re.search` places the match
  start leftmost; since `.` matches everything but `\n`, group 1 extends from
  just after the last `\n` preceding `W` (or from the start of `s`) up to
  `W`, and is nonempty exactly when some character precedes `W` (the
  character directly before `W` is neither whitespace nor `\n`).
* Pattern 2: anchored at the start.  The greedy `[\d.]+` must be the maximal
  `[\d.]`-prefix (shortening it would put a `[\d.]` character under `\s+`),
  `\s+` the maximal whitespace run after it, and the greedy `(.+)` runs from
  there to the first `\n` or the end, and must be nonempty. -/

/-- `re.search(r'(.+?)\s+([\d.]+)\s*$', s)` on a stripped `s`:
`some (group1, group2)` or `none`.  Reading `s` from the back: the trailing
`[\d.]`-run is group 2, the whitespace run before it carries `\s+`, and
group 1 is the text before that, cut at the last `\n`. -/
def trailingSearch (s : List Char) : Option (List Char × List Char) :=
  if s.reverse.takeWhile isDigitDot = [] ∨
      (s.reverse.dropWhile isDigitDot).takeWhile isPySpace = [] ∨
      ((s.reverse.dropWhile isDigitDot).dropWhile isPySpace).takeWhile notNL = [] then
    none
  else
    some ((((s.reverse.dropWhile isDigitDot).dropWhile isPySpace).takeWhile notNL).reverse,
          (s.reverse.takeWhile isDigitDot).reverse)

/-- `re.search(r'^([\d.]+)\s+(.+)', s)` on a stripped `s`:
`some (group1, group2)` or `none`.  The leading `[\d.]`-run is group 1, the
whitespace run after it carries `\s+`, and group 2 is the text after that,
cut at the first `\n`. -/
def leadingSearch (s : List Char) : Option (List Char × List Char) :=
  if s.takeWhile isDigitDot = [] ∨
      (s.dropWhile isDigitDot).takeWhile isPySpace = [] ∨
      ((s.dropWhile isDigitDot).dropWhile isPySpace).takeWhile notNL = [] then
    none
  else
    some (s.takeWhile isDigitDot,
          ((s.dropWhile isDigitDot).dropWhile isPySpace).takeWhile notNL)

/-! ## `parse_expense` -/

/-- Result of `parse_expense`.  The source returns `(description, amount)` on
a regex match and `(None, None)` otherwise; `float(..)` on a matched token
can also raise an uncaught `ValueError`, modelled by `raised`. -/
inductive ParseResult where
  | parsed (description : String) (amount : ℚ)
  | failed
  | raised
deriving DecidableEq

/-- `parse_expense` (app.py:84-100). -/
def parse_expense (text : String) : ParseResult :=
  match trailingSearch (pystripL text.data) with
  | some (g1, g2) =>
      match pyFloatL g2 with
      | some amount => ParseResult.parsed ⟨pystripL g1⟩ amount
      | none => ParseResult.raised
  | none =>
      match leadingSearch (pystripL text.data) with
      | some (g1, g2) =>
          match pyFloatL g1 with
          | some amount => ParseResult.parsed ⟨pystripL g2⟩ amount
          | none => ParseResult.raised
      | none => ParseResult.failed

/-- The webhook's guard `if description and amount:` (app.py:231) on the
outcome of `parse_expense`: Python truthiness of the pair, i.e. the
description is non-empty and the amount is a nonzero float.  (When
`parse_expense` raises, control never reaches this guard.) -/
def truthyParse : ParseResult → Bool
  | ParseResult.parsed d a => decide (d ≠ "" ∧ a ≠ 0)
  | ParseResult.failed => false
  | ParseResult.raised => false

/-! ## `categorize_expense` -/

/-- The prompt built by `categorize_expense` (app.py:70-74). -/
def geminiPrompt (description : String) : String :=
  "Categorize this expense into ONE word category: \"" ++ description ++
  "\"\n\nCommon categories: Food, Transport, Shopping, Entertainment, Bills, Health, Education, Groceries, Other\n\nRespond with ONLY the category name, nothing else."

/-- `categorize_expense` (app.py:67-81).  The collaborator argument gives the
observable behaviour of `model.generate_content(..).text` for this call:
`Except.error` when it raises (connectivity, timeout, blocked response),
`Except.ok t` when it returns the text `t`.  The `try` block catches every
exception and substitutes `"Other"`; a returned string is stripped and
returned as-is, with no emptiness or vocabulary check. -/
def categorize_expense (model : String → Except Unit String) (description : String) : String :=
  match model (geminiPrompt description) with
  | Except.error _ => "Other"
  | Except.ok t => pystrip t

/-! ## Dates: `datetime.strptime(s, "%Y-%m-%d").date()`

CPython's `_strptime` compiles `%Y-%m-%d` to the regular expression
`(?P<Y>\d\d\d\d)-(?P<m>1[0-2]|0[1-9]|[1-9])-(?P<d>3[01]|[12]\d|0[1-9]|[1-9])`,
matches it at the start of the string, and raises `ValueError` if the match
fails or does not consume the whole string; `datetime(y, m, d)` then raises
for day numbers exceeding the month length (and for year 0). -/

structure Date where
  year : ℕ
  month : ℕ
  day : ℕ
deriving DecidableEq

/-- Gregorian leap year. -/
def isLeap (y : ℕ) : Bool :=
  (y % 4 == 0 && y % 100 != 0) || y % 400 == 0

/-- Number of days in month `m` of year `y`. -/
def daysInMonth (y m : ℕ) : ℕ :=
  if m = 2 then (if isLeap y then 29 else 28)
  else if m = 4 ∨ m = 6 ∨ m = 9 ∨ m = 11 then 30
  else 31

/-- Two decimal digit characters as a number. -/
def digit2 (a b : Char) : ℕ :=
  10 * (a.toNat - 48) + (b.toNat - 48)

/-- The `%m` group `1[0-2]|0[1-9]|[1-9]` followed by the literal `-`:
returns the month value and the remainder after the `-`.  If the two-digit
alternative matches but is not followed by `-`, the regex engine backtracks
to the one-digit alternative. -/
def monthSplit (l : List Char) : Option (ℕ × List Char) :=
  match l with
  | c1 :: c2 :: rest =>
      if (c1 = '1' ∧ '0' ≤ c2 ∧ c2 ≤ '2') ∨ (c1 = '0' ∧ '1' ≤ c2 ∧ c2 ≤ '9') then
        match rest with
        | '-' :: rest2 => some (digit2 c1 c2, rest2)
        | _ => if ('1' ≤ c1 ∧ c1 ≤ '9') ∧ c2 = '-' then some (c1.toNat - 48, rest) else none
      else if ('1' ≤ c1 ∧ c1 ≤ '9') ∧ c2 = '-' then some (c1.toNat - 48, rest)
      else none
  | _ => none

/-- The `%d` group `3[01]|[12]\d|0[1-9]|[1-9]`, which must consume the whole
remainder: `strptime` raises on leftover characters, and the leftover check
happens after the regex has committed to its (alternation-ordered) match. -/
def daySplit (l : List Char) : Option ℕ :=
  match l with
  | [c1] => if '1' ≤ c1 ∧ c1 ≤ '9' then some (c1.toNat - 48) else none
  | c1 :: c2 :: rest =>
      if (c1 = '3' ∧ (c2 = '0' ∨ c2 = '1')) ∨ ((c1 = '1' ∨ c1 = '2') ∧ c2.isDigit)
          ∨ (c1 = '0' ∧ '1' ≤ c2 ∧ c2 ≤ '9') then
        if rest = [] then some (digit2 c1 c2) else none
      else none
  | [] => none

/-- `datetime.strptime(s, "%Y-%m-%d").date()`, `none` modelling `ValueError`. -/
def parseDate (s : String) : Option Date :=
  match s.data with
  | y1 :: y2 :: y3 :: y4 :: '-' :: rest =>
      if y1.isDigit ∧ y2.isDigit ∧ y3.isDigit ∧ y4.isDigit then
        match monthSplit rest with
        | some (m, rest2) =>
            match daySplit rest2 with
            | some d =>
                let y := digitsToNat [y1, y2, y3, y4]
                if 1 ≤ y ∧ d ≤ daysInMonth y m then some ⟨y, m, d⟩ else none
            | none => none
        | none => none
      else none
  | _ => none

/-- Days before year `y` in the proleptic Gregorian calendar (CPython's
`_days_before_year`). -/
def daysBeforeYear (y : ℕ) : ℕ :=
  365 * (y - 1) + (y - 1) / 4 - (y - 1) / 100 + (y - 1) / 400

/-- Days in year `y` before month `m` (CPython's `_days_before_month`). -/
def daysBeforeMonth (y m : ℕ) : ℕ :=
  (match m with
   | 1 => 0 | 2 => 31 | 3 => 59 | 4 => 90 | 5 => 120 | 6 => 151
   | 7 => 181 | 8 => 212 | 9 => 243 | 10 => 273 | 11 => 304 | _ => 334)
  + (if 2 < m ∧ isLeap y then 1 else 0)

/-- `date.toordinal()`: day number since 0000-12-31; date subtraction in the
source (`(today - record_date).days`) is the difference of ordinals. -/
def Date.toOrdinal (d : Date) : ℕ :=
  daysBeforeYear d.year + daysBeforeMonth d.year d.month + d.day

/-! ## `get_summary` -/

/-- One row of `worksheet.get_all_records()`: a mapping with the five header
columns written by `save_expense`, all cell contents taken as text. -/
structure Row where
  Date : String
  Description : String
  Amount : String
  Category : String
  Timestamp : String
deriving DecidableEq

/-- Outcome of the ledger read in `get_summary`: the worksheet client could
not be initialised (`get_or_create_sheet()` returned `None`), the read
raised (caught by the surrounding `try`), or it returned the rows. -/
inductive LedgerRead where
  | ok (rows : List Row)
  | unavailable
  | raised
deriving DecidableEq

/-- The date filter of `get_summary` (app.py:135-146): a row is kept when its
`Date` cell parses and the `if/elif` chain on `period` accepts it; a row
whose date fails to parse is skipped by the bare `except`. -/
def keepRow (period : String) (today : Date) (r : Row) : Bool :=
  match parseDate r.Date with
  | none => false
  | some rd =>
      decide ((period = "today" ∧ rd = today) ∨
        (period = "week" ∧ (today.toOrdinal : ℤ) - (rd.toOrdinal : ℤ) ≤ 7) ∨
        (period = "month" ∧ (today.toOrdinal : ℤ) - (rd.toOrdinal : ℤ) ≤ 30))

/-- Insertion-ordered accumulation into `category_totals` (app.py:157-160):
Python dicts preserve insertion order, so the mapping is a list of
key/total pairs with unique keys.  `category_totals[category] += amount` is
a rounded double addition; a first occurrence stores the amount itself. -/
def insertAdd (l : List (String × ℚ)) (k : String) (v : ℚ) : List (String × ℚ) :=
  match l with
  | [] => [(k, v)]
  | (k0, v0) :: rest =>
      if k0 = k then (k0, fladd v0 v) :: rest else (k0, v0) :: insertAdd rest k v

/-- One iteration of the totals loop (app.py:152-164): parse the `Amount`
cell; on `ValueError` the bare `except` skips the row, otherwise add the
amount to the row's category and - `total += amount`, again a rounded double
addition - to the grand total. -/
def sumStep (acc : List (String × ℚ) × ℚ) (r : Row) : List (String × ℚ) × ℚ :=
  match pyFloatL r.Amount.data with
  | none => acc
  | some amount => (insertAdd acc.1 r.Category amount, fladd acc.2 amount)

/-- `get_summary` (app.py:121-171), with the ledger read outcome and the
value of `datetime.now().date()` made explicit.  Any failure of the read
produces `([], 0)` via the early return or the surrounding `try`. -/
def get_summary (ledger : LedgerRead) (period : String) (today : Date) :
    List (String × ℚ) × ℚ :=
  match ledger with
  | LedgerRead.unavailable => ([], 0)
  | LedgerRead.raised => ([], 0)
  | LedgerRead.ok records =>
      (records.filter (keepRow period today)).foldl sumStep ([], 0)

/-- Value stored under key `k` in the insertion-ordered mapping (Python dict
lookup; keys are unique, so the first match is the only one). -/
def lookupCat : List (String × ℚ) → String → Option ℚ
  | [], _ => none
  | (k0, v0) :: rest, k => if k0 = k then some v0 else lookupCat rest k

/-- Reference accumulation for one dict entry, following the loop's policy:
a first amount is stored as-is, every later one is added with a rounded
double addition.  `seedFold none l` describes the value a category holds
after accumulating the amounts `l` (`none` when the category never
occurred). -/
def seedFold : Option ℚ → List ℚ → Option ℚ
  | none, [] => none
  | none, a :: rest => some (rest.foldl fladd a)
  | some w, l => some (l.foldl fladd w)

/-! ## Sanity checks of the embedding against the behaviour of app.py -/

example : roundDouble (1 / 10) = 3602879701896397 / 36028797018963968 := by
  with_unfolding_all rfl
example : roundDouble (2 / 10) = 3602879701896397 / 18014398509481984 := by
  with_unfolding_all rfl
example :
    fladd (roundDouble (1 / 10)) (roundDouble (2 / 10)) =
      1351079888211149 / 4503599627370496 := by
  with_unfolding_all rfl
example : roundDouble (3 / 10) = 5404319552844595 / 18014398509481984 := by
  with_unfolding_all rfl
example : pyFloat "10000000000000000" = some 10000000000000000 := by
  with_unfolding_all rfl
example : fladd 10000000000000000 1 = 10000000000000000 := by with_unfolding_all rfl
example : fladd (9007199254740992 : ℚ) 1 = 9007199254740992 := by with_unfolding_all rfl
example : fladd (9007199254740994 : ℚ) 1 = 9007199254740996 := by with_unfolding_all rfl

example : parse_expense "Lunch 15.50" = ParseResult.parsed "Lunch" (31 / 2) := by with_unfolding_all rfl
example : parse_expense "15 Lunch today" = ParseResult.parsed "Lunch today" 15 := by with_unfolding_all rfl
example : parse_expense "5 5" = ParseResult.parsed "5" 5 := by with_unfolding_all rfl
example : parse_expense "12" = ParseResult.failed := by with_unfolding_all rfl
example : parse_expense "" = ParseResult.failed := by with_unfolding_all rfl
example : parse_expense "hello" = ParseResult.failed := by with_unfolding_all rfl
example : parse_expense "  Uber  12  " = ParseResult.parsed "Uber" 12 := by with_unfolding_all rfl
example : parse_expense "Coffee 1.2.3" = ParseResult.raised := by with_unfolding_all rfl
example : parse_expense "1.2.3 Coffee" = ParseResult.raised := by with_unfolding_all rfl
example : parse_expense "a\nb 5" = ParseResult.parsed "b" 5 := by with_unfolding_all rfl
example : parseDate "2024-06-01" = some ⟨2024, 6, 1⟩ := by with_unfolding_all rfl
example : parseDate "2024-6-1" = some ⟨2024, 6, 1⟩ := by with_unfolding_all rfl
example : parseDate "2024-02-30" = none := by with_unfolding_all rfl
example : parseDate "2024-06-01x" = none := by with_unfolding_all rfl
example : parseDate "bad" = none := by with_unfolding_all rfl
example :
    get_summary (LedgerRead.ok
      [⟨"2024-06-01", "Lunch", "10", "Food", "t1"⟩,
       ⟨"2024-05-30", "Bus", "5", "Food", "t2"⟩]) "today" ⟨2024, 6, 1⟩ =
    ([("Food", 10)], 10) := by with_unfolding_all rfl
example :
    get_summary (LedgerRead.ok
      [⟨"2024-06-01", "Lunch", "10", "Food", "t1"⟩,
       ⟨"2024-05-30", "Bus", "5", "Food", "t2"⟩,
       ⟨"2024-05-30", "x", "abc", "Food", "t3"⟩]) "week" ⟨2024, 6, 1⟩ =
    ([("Food", 15)], 15) := by with_unfolding_all rfl

/-! ## List lemmas about `takeWhile` / `dropWhile` -/

theorem dropWhile_append_left (p : Char → Bool) (l m : List Char)
    (h : l.dropWhile p ≠ []) :
    (l ++ m).dropWhile p = l.dropWhile p ++ m := by
  rw [List.dropWhile_append, if_neg]
  rcases hdp : l.dropWhile p with _ | ⟨x, t⟩
  · exact absurd hdp h
  · simp [List.isEmpty]

theorem takeWhile_append_stop (p : Char → Bool) (m t : List Char) (y : Char)
    (hm : ∀ c ∈ m, p c = true) (hy : p y = false) :
    (m ++ y :: t).takeWhile p = m := by
  rw [List.takeWhile_append_of_pos hm, List.takeWhile_cons_of_neg (by simp [hy]),
    List.append_nil]

theorem dropWhile_append_stop (p : Char → Bool) (m t : List Char) (y : Char)
    (hm : ∀ c ∈ m, p c = true) (hy : p y = false) :
    (m ++ y :: t).dropWhile p = y :: t := by
  rw [List.dropWhile_append_of_pos hm, List.dropWhile_cons_of_neg (by simp [hy])]

theorem dropWhile_head_not (p : Char → Bool) (l : List Char) :
    ∀ {x : Char} {t : List Char}, l.dropWhile p = x :: t → p x = false := by
  induction l with
  | nil => intro x t h; simp at h
  | cons a l ih =>
      intro x t h
      by_cases hpa : p a = true
      · rw [List.dropWhile_cons_of_pos hpa] at h
        exact ih h
      · rw [List.dropWhile_cons_of_neg hpa] at h
        cases h
        simpa using hpa

theorem dropWhile_suffix_exists (p : Char → Bool) (l : List Char) :
    ∃ t, t ++ l.dropWhile p = l :=
  ⟨l.takeWhile p, List.takeWhile_append_dropWhile p l⟩

theorem takeWhile_eq_self_of_all (p : Char → Bool) (l : List Char)
    (h : ∀ c ∈ l, p c = true) : l.takeWhile p = l := by
  induction l with
  | nil => rfl
  | cons a t ih =>
      rw [List.takeWhile_cons_of_pos (h a (List.mem_cons_self a t)),
        ih (fun c hc => h c (List.mem_cons_of_mem a hc))]

theorem dropWhile_eq_nil_of_all (p : Char → Bool) (l : List Char)
    (h : ∀ c ∈ l, p c = true) : l.dropWhile p = [] := by
  induction l with
  | nil => rfl
  | cons a t ih =>
      rw [List.dropWhile_cons_of_pos (h a (List.mem_cons_self a t))]
      exact ih (fun c hc => h c (List.mem_cons_of_mem a hc))

theorem dropWhile_idem (p : Char → Bool) (l : List Char) :
    (l.dropWhile p).dropWhile p = l.dropWhile p := by
  rcases h : l.dropWhile p with _ | ⟨x, t⟩
  · rfl
  · exact List.dropWhile_cons_of_neg (by simp [dropWhile_head_not p l h])

/-! ## Facts about `str.strip()` -/

/-- The first character of a non-trivially-stripped string is not whitespace:
the stripped string is a prefix of the left-stripped one. -/
theorem pystripL_head_not {l : List Char} {c : Char} {rest : List Char}
    (h : pystripL l = c :: rest) : isPySpace c = false := by
  obtain ⟨t, ht⟩ := dropWhile_suffix_exists isPySpace (l.dropWhile isPySpace).reverse
  unfold pystripL at h
  have h2 := congrArg List.reverse ht
  rw [List.reverse_append, List.reverse_reverse, h] at h2
  exact dropWhile_head_not isPySpace l (by simpa using h2.symm)

theorem pystripL_idem (l : List Char) : pystripL (pystripL l) = pystripL l := by
  rcases h : pystripL l with _ | ⟨c, rest⟩
  · rfl
  · have hc : isPySpace c = false := pystripL_head_not h
    have h3 : ((pystripL l).reverse).dropWhile isPySpace = (pystripL l).reverse := by
      unfold pystripL
      rw [List.reverse_reverse]
      exact dropWhile_idem isPySpace _
    rw [h] at h3
    unfold pystripL
    rw [List.dropWhile_cons_of_neg (by simp [hc]), h3, List.reverse_reverse]

/-- A character other than `\n` is matched by the regex metacharacter `.`. -/
theorem ne_nl_notNL {c : Char} (h : c ≠ '\n') : notNL c = true := by
  unfold notNL
  simpa using h

/-- A non-whitespace character is matched by the regex metacharacter `.`. -/
theorem not_ws_notNL {c : Char} (h : isPySpace c = false) : notNL c = true := by
  unfold notNL
  rcases heq : c == '\n'
  · simp [bne, heq]
  · exfalso
    rw [show c = '\n' from by simpa using heq] at h
    exact absurd h (by decide)

/-- `[\d.]` characters are not whitespace. -/
theorem idd_not_ws (c : Char) (h : isDigitDot c = true) : isPySpace c = false := by
  cases hps : isPySpace c
  · rfl
  · exfalso
    unfold isPySpace at hps
    simp only [Bool.or_eq_true, beq_iff_eq] at hps
    rcases hps with ((((h1 | h1) | h1) | h1) | h1) | h1 <;> subst h1 <;>
      exact absurd h (by decide)

/-! ## The trailing-amount regex on a message `"<description> <amount>"` -/

/-- Stripping a concatenation `d ++ ' ' ++ a` with `a` a nonempty `[\d.]`-run
and `d` not all whitespace only strips the front of `d`. -/
theorem pystripL_concat (d a : List Char) (hd : d.dropWhile isPySpace ≠ [])
    (ha : a ≠ []) (hall : ∀ c ∈ a, isDigitDot c = true) :
    pystripL (d ++ ' ' :: a) = d.dropWhile isPySpace ++ ' ' :: a := by
  obtain ⟨c, t, hct⟩ : ∃ c t, a.reverse = c :: t := by
    rcases ha' : a.reverse with _ | ⟨c, t⟩
    · exact absurd (by simpa using congrArg List.reverse ha') ha
    · exact ⟨c, t, rfl⟩
  have hc : isDigitDot c = true := hall c (by rw [← List.mem_reverse, hct]; exact List.mem_cons_self c t)
  have hcw : isPySpace c = false := idd_not_ws c hc
  unfold pystripL
  rw [dropWhile_append_left isPySpace d (' ' :: a) hd]
  have hrev : (d.dropWhile isPySpace ++ ' ' :: a).reverse
      = c :: (t ++ ' ' :: (d.dropWhile isPySpace).reverse) := by
    rw [List.reverse_append, List.reverse_cons, hct]
    simp
  rw [hrev, List.dropWhile_cons_of_neg (by simp [hcw]), ← hrev, List.reverse_reverse]

/-- The first regex of `parse_expense` on a message `"<description> <amount>"`
(with `a` a nonempty `[\d.]`-token and `d` not all whitespace): group 2 is
exactly the amount token, group 1 the part of the stripped description after
its last newline. -/
theorem trailingSearch_concat (d a : List Char) (hd : pystripL d ≠ [])
    (ha : a ≠ []) (hall : ∀ c ∈ a, isDigitDot c = true) :
    trailingSearch (pystripL (d ++ ' ' :: a)) =
      some (((pystripL d).reverse.takeWhile notNL).reverse, a) := by
  have hdL : d.dropWhile isPySpace ≠ [] := by
    intro h0
    apply hd
    unfold pystripL
    rw [h0]
    rfl
  rw [pystripL_concat d a hdL ha hall]
  have hr : (d.dropWhile isPySpace ++ ' ' :: a).reverse
      = a.reverse ++ ' ' :: (d.dropWhile isPySpace).reverse := by
    rw [List.reverse_append, List.reverse_cons]
    simp
  have hallr : ∀ c ∈ a.reverse, isDigitDot c = true :=
    fun c hc => hall c (List.mem_reverse.mp hc)
  have htok : (a.reverse ++ ' ' :: (d.dropWhile isPySpace).reverse).takeWhile isDigitDot
      = a.reverse := takeWhile_append_stop isDigitDot _ _ ' ' hallr (by decide)
  have hr1 : (a.reverse ++ ' ' :: (d.dropWhile isPySpace).reverse).dropWhile isDigitDot
      = ' ' :: (d.dropWhile isPySpace).reverse :=
    dropWhile_append_stop isDigitDot _ _ ' ' hallr (by decide)
  have hr2 : (' ' :: (d.dropWhile isPySpace).reverse).dropWhile isPySpace
      = (pystripL d).reverse := by
    rw [List.dropWhile_cons_of_pos (by decide)]
    unfold pystripL
    rw [List.reverse_reverse]
  have hw : (' ' :: (d.dropWhile isPySpace).reverse).takeWhile isPySpace
      = ' ' :: ((d.dropWhile isPySpace).reverse.takeWhile isPySpace) :=
    List.takeWhile_cons_of_pos (by decide)
  obtain ⟨c, rest, hcr⟩ : ∃ c rest, pystripL d = c :: rest := by
    rcases h0 : pystripL d with _ | ⟨c, rest⟩
    · exact absurd h0 hd
    · exact ⟨c, rest, rfl⟩
  have hcw : isPySpace c = false := pystripL_head_not hcr
  have hcnl : notNL c = true := not_ws_notNL hcw
  have hrev2 : (pystripL d).reverse = rest.reverse ++ [c] := by rw [hcr, List.reverse_cons]
  have hg : (pystripL d).reverse.takeWhile notNL ≠ [] := by
    rcases h6 : rest.reverse with _ | ⟨c2, t2⟩
    · rw [hrev2, h6]
      simp [List.takeWhile_cons_of_pos hcnl]
    · have h7 : (pystripL d).reverse = c2 :: (t2 ++ [c]) := by
        rw [hrev2, h6]
        simp
      have hc2 : isPySpace c2 = false := by
        apply dropWhile_head_not isPySpace (d.dropWhile isPySpace).reverse
        rw [← h7]
        unfold pystripL
        rw [List.reverse_reverse]
      have hc2nl : notNL c2 = true := not_ws_notNL hc2
      rw [h7]
      simp [List.takeWhile_cons_of_pos hc2nl]
  unfold trailingSearch
  rw [hr, htok, hr1, hr2, hw]
  have hcond : ¬ (a.reverse = [] ∨
      (' ' :: ((d.dropWhile isPySpace).reverse.takeWhile isPySpace) : List Char) = [] ∨
      (pystripL d).reverse.takeWhile notNL = []) := by
    push_neg
    refine ⟨by simpa using ha, by simp, hg⟩
  rw [if_neg hcond, List.reverse_reverse]

/-! ## Unfolding `parse_expense` by the regex outcomes -/

theorem parse_expense_of_trailing {text : String} {g1 g2 : List Char}
    (h : trailingSearch (pystripL text.data) = some (g1, g2)) :
    parse_expense text =
      match pyFloatL g2 with
      | some amount => ParseResult.parsed ⟨pystripL g1⟩ amount
      | none => ParseResult.raised := by
  unfold parse_expense
  rw [h]

theorem parse_expense_of_no_search {text : String}
    (h1 : trailingSearch (pystripL text.data) = none)
    (h2 : leadingSearch (pystripL text.data) = none) :
    parse_expense text = ParseResult.failed := by
  unfold parse_expense
  rw [h1, h2]

/-! ## Claims about the parser -/

/-- C1: the spec says a numeric token that fails to parse as a decimal makes
`parse` return `Failed`; the code instead lets `float("1.2.3")` raise an
uncaught `ValueError` in both the trailing- and the leading-amount branch. -/
theorem C1_bad_decimal_raises :
    parse_expense "Coffee 1.2.3" = ParseResult.raised ∧
    parse_expense "1.2.3 Coffee" = ParseResult.raised := by
  constructor
  · with_unfolding_all rfl
  · with_unfolding_all rfl

/-- C2 counterexample: a collaborator that returns the empty string does not
raise, so `categorize_expense` returns `""` unchanged instead of the
fallback label `"Other"` claimed for unusable output. -/
theorem C2_empty_output_counterexample :
    categorize_expense (fun _ => Except.ok "") "Coffee" = "" ∧
    ("" : String) ≠ "Other" := by
  constructor
  · with_unfolding_all rfl
  · decide

/-- C2 (amended): `categorize_expense` returns `"Other"` exactly when the
collaborator raises; any returned string - empty or not, in the vocabulary
or not - is passed through stripped of surrounding whitespace. -/
theorem C2_fallback_on_exception (model : String → Except Unit String) (description : String) :
    (∀ e : Unit, model (geminiPrompt description) = Except.error e →
        categorize_expense model description = "Other") ∧
    (∀ t : String, model (geminiPrompt description) = Except.ok t →
        categorize_expense model description = pystrip t) := by
  constructor
  · intro e he
    unfold categorize_expense
    rw [he]
  · intro t ht
    unfold categorize_expense
    rw [ht]

/-- C2 witness: the amended claim at concrete collaborator behaviours. -/
theorem C2_fallback_witness :
    categorize_expense (fun _ => Except.error ()) "Taxi" = "Other" ∧
    categorize_expense (fun _ => Except.ok " Food ") "Taxi" = pystrip " Food " := by
  constructor
  · exact (C2_fallback_on_exception (fun _ => Except.error ()) "Taxi").1 () rfl
  · exact (C2_fallback_on_exception (fun _ => Except.ok " Food ") "Taxi").2 " Food " rfl

/-- C5 counterexample: for the input `"a\nb 5"` - which is of the form
`"<description> <amount>"` with description `"a\nb"` and amount `5` - the
parser returns only the part of the description after the newline, because
`.` in the regex does not match `\n`. -/
theorem C5_newline_counterexample :
    parse_expense "a\nb 5" = ParseResult.parsed "b" 5 ∧
    ParseResult.parsed "b" (5 : ℚ) ≠ ParseResult.parsed "a\nb" 5 := by
  constructor
  · with_unfolding_all rfl
  · intro hcontra
    injection hcontra with h1 h2
    exact absurd h1 (by decide)

/-- C5 (amended): for every input `"<description> <amount>"` whose trimmed
description is non-empty and contains no newline, and whose amount is a
`[\d.]`-token that parses as a (positive) decimal, `parse_expense` returns
exactly the trimmed description and the numeric value of the token. -/
theorem C5_wellformed_parse (d a : List Char) (q : ℚ)
    (hd : pystripL d ≠ [])
    (hnl : '\n' ∉ pystripL d)
    (ha : a ≠ [])
    (hall : ∀ c ∈ a, isDigitDot c = true)
    (hq : pyFloatL a = some q)
    (hq0 : 0 < q) :
    parse_expense ⟨d ++ ' ' :: a⟩ = ParseResult.parsed ⟨pystripL d⟩ q := by
  have h : trailingSearch (pystripL (String.mk (d ++ ' ' :: a)).data) =
      some (((pystripL d).reverse.takeWhile notNL).reverse, a) :=
    trailingSearch_concat d a hd ha hall
  rw [parse_expense_of_trailing h, hq]
  have hTW : (pystripL d).reverse.takeWhile notNL = (pystripL d).reverse := by
    apply takeWhile_eq_self_of_all
    intro c hc
    exact ne_nl_notNL (fun he => hnl (he ▸ List.mem_reverse.mp hc))
  rw [hTW, List.reverse_reverse, pystripL_idem]

/-- C5 witness: `"Lunch 15.50"` parses to the trimmed description `"Lunch"`
and the exact value of `15.50`. -/
theorem C5_wellformed_witness :
    parse_expense ⟨"Lunch".data ++ ' ' :: "15.50".data⟩ =
      ParseResult.parsed ⟨pystripL "Lunch".data⟩ (31 / 2) :=
  C5_wellformed_parse "Lunch".data "15.50".data (31 / 2) (by decide) (by decide)
    (by decide) (by decide) (by with_unfolding_all rfl) (by norm_num)

/-- C6: when both regex forms match, the trailing-amount interpretation wins
because it is attempted first; in particular `"5 5"` parses as description
`"5"`, amount `5`. -/
theorem C6_trailing_precedence :
    parse_expense "5 5" = ParseResult.parsed "5" 5 ∧
    ∀ (text : String) (p1 p2 q1 q2 : List Char),
      trailingSearch (pystripL text.data) = some (p1, p2) →
      leadingSearch (pystripL text.data) = some (q1, q2) →
      parse_expense text =
        match pyFloatL p2 with
        | some amount => ParseResult.parsed ⟨pystripL p1⟩ amount
        | none => ParseResult.raised := by
  constructor
  · with_unfolding_all rfl
  · intro text p1 p2 q1 q2 h1 h2
    exact parse_expense_of_trailing h1

/-- C6 witness: `"37 42"` matches both forms and resolves by the trailing
one. -/
theorem C6_precedence_witness : parse_expense "37 42" = ParseResult.parsed "37" 42 := by
  have h := C6_trailing_precedence.2 "37 42" ['3', '7'] ['4', '2'] ['3', '7'] ['4', '2']
    (by with_unfolding_all rfl) (by with_unfolding_all rfl)
  exact h.trans (by with_unfolding_all rfl)

/-- C7: an input that is (after trimming) one bare `[\d.]`-token has no
description and fails both forms, and `""` and `"hello"` fail as well; but
for the input `"ab ."` - which contains no numeric token in the spec's sense
(no digits) - the regex still matches the bare `"."` and `float(".")` raises
instead of returning `Failed`. -/
theorem C7_no_token_failed :
    (∀ text : String, pystripL text.data ≠ [] →
        (∀ c ∈ pystripL text.data, isDigitDot c = true) →
        parse_expense text = ParseResult.failed) ∧
    parse_expense "" = ParseResult.failed ∧
    parse_expense "hello" = ParseResult.failed ∧
    parse_expense "ab ." = ParseResult.raised := by
  refine ⟨?_, by with_unfolding_all rfl, by with_unfolding_all rfl, by with_unfolding_all rfl⟩
  intro text hne hall
  apply parse_expense_of_no_search
  · have hB : ((pystripL text.data).reverse.dropWhile isDigitDot).takeWhile isPySpace = [] := by
      rw [dropWhile_eq_nil_of_all isDigitDot _ (fun c hc => hall c (List.mem_reverse.mp hc))]
      rfl
    unfold trailingSearch
    rw [if_pos (Or.inr (Or.inl hB))]
  · have hB : ((pystripL text.data).dropWhile isDigitDot).takeWhile isPySpace = [] := by
      rw [dropWhile_eq_nil_of_all isDigitDot _ hall]
      rfl
    unfold leadingSearch
    rw [if_pos (Or.inr (Or.inl hB))]

/-- C7 witness: the bare token `"12"` is rejected. -/
theorem C7_numeric_only_witness : parse_expense "12" = ParseResult.failed :=
  C7_no_token_failed.1 "12" (by decide) (by decide)

/-- C10: the parser does not enforce `amount > 0`: any
`"<non-empty description> 0"` parses with amount `0`, and the webhook's
truthiness guard then treats the result as not understood. -/
theorem C10_zero_amount (d : List Char) (hd : pystripL d ≠ []) :
    parse_expense ⟨d ++ [' ', '0']⟩ =
      ParseResult.parsed ⟨pystripL (((pystripL d).reverse.takeWhile notNL).reverse)⟩ 0 ∧
    truthyParse (parse_expense ⟨d ++ [' ', '0']⟩) = false := by
  have h : trailingSearch (pystripL (String.mk (d ++ [' ', '0'])).data) =
      some (((pystripL d).reverse.takeWhile notNL).reverse, ['0']) :=
    trailingSearch_concat d ['0'] hd (by simp)
      (by intro c hc; simp at hc; subst hc; decide)
  have hres := parse_expense_of_trailing h
  have hfloat : pyFloatL ['0'] = some 0 := by with_unfolding_all rfl
  rw [hfloat] at hres
  constructor
  · rw [hres]
  · rw [hres]
    simp [truthyParse]

/-- C10 witness: `"Lunch 0"` parses with amount `0` and is rejected by the
webhook guard. -/
theorem C10_zero_amount_witness :
    parse_expense ⟨"Lunch".data ++ [' ', '0']⟩ = ParseResult.parsed "Lunch" 0 ∧
    truthyParse (parse_expense ⟨"Lunch".data ++ [' ', '0']⟩) = false := by
  have h := C10_zero_amount "Lunch".data (by decide)
  exact ⟨h.1.trans (by with_unfolding_all rfl), h.2⟩

/-! ## Claims about the summary engine -/

/-- C3: a row whose date parses is retained exactly per the window rule -
equality with `today` for the `today` window, day difference at most 7
(resp. 30) for `week` (resp. `month`) - and since the day-difference bound
does not require the row date to be at most `today`, future-dated rows are
retained by the `week` and `month` windows. -/
theorem C3_window_filter (r : Row) (rd today : Date) (h : parseDate r.Date = some rd) :
    (keepRow "today" today r = true ↔ rd = today) ∧
    (keepRow "week" today r = true ↔ (today.toOrdinal : ℤ) - (rd.toOrdinal : ℤ) ≤ 7) ∧
    (keepRow "month" today r = true ↔ (today.toOrdinal : ℤ) - (rd.toOrdinal : ℤ) ≤ 30) ∧
    ((today.toOrdinal : ℤ) - (rd.toOrdinal : ℤ) < 0 →
      keepRow "week" today r = true ∧ keepRow "month" today r = true) := by
  have hk : ∀ per : String, keepRow per today r =
      decide ((per = "today" ∧ rd = today) ∨
        (per = "week" ∧ (today.toOrdinal : ℤ) - (rd.toOrdinal : ℤ) ≤ 7) ∨
        (per = "month" ∧ (today.toOrdinal : ℤ) - (rd.toOrdinal : ℤ) ≤ 30)) := by
    intro per
    unfold keepRow
    rw [h]
  have ht1 : ("today" : String) ≠ "week" := by decide
  have ht2 : ("today" : String) ≠ "month" := by decide
  have hw1 : ("week" : String) ≠ "today" := by decide
  have hw2 : ("week" : String) ≠ "month" := by decide
  have hm1 : ("month" : String) ≠ "today" := by decide
  have hm2 : ("month" : String) ≠ "week" := by decide
  refine ⟨?_, ?_, ?_, ?_⟩
  · rw [hk]
    simp [decide_eq_true_eq, ht1, ht2]
  · rw [hk]
    simp [decide_eq_true_eq, hw1, hw2]
  · rw [hk]
    simp [decide_eq_true_eq, hm1, hm2]
  · intro hlt
    constructor
    · rw [hk]
      exact decide_eq_true (Or.inr (Or.inl ⟨rfl, by omega⟩))
    · rw [hk]
      exact decide_eq_true (Or.inr (Or.inr ⟨rfl, by omega⟩))

/-- C3 witness: with `today = 2024-06-01`, the future-dated row `2024-06-02`
is retained by the `week` window and rejected by the `today` window. -/
theorem C3_window_filter_witness :
    keepRow "week" ⟨2024, 6, 1⟩ ⟨"2024-06-02", "x", "5", "Food", "t"⟩ = true ∧
    keepRow "today" ⟨2024, 6, 1⟩ ⟨"2024-06-02", "x", "5", "Food", "t"⟩ = false := by
  have h := C3_window_filter ⟨"2024-06-02", "x", "5", "Food", "t"⟩ ⟨2024, 6, 2⟩ ⟨2024, 6, 1⟩
    (by decide)
  refine ⟨h.2.1.mpr (by decide), ?_⟩
  cases hb : keepRow "today" ⟨2024, 6, 1⟩ ⟨"2024-06-02", "x", "5", "Food", "t"⟩
  · rfl
  · exact absurd (h.1.mp hb) (by decide)

/-- C4: a row whose date cell does not `strptime` or whose amount cell does
not `float` contributes nothing: the summary equals the one over the same
rows with that row removed, and no error escapes (both loops skip it via
their bare `except`). -/
theorem C4_malformed_row_skipped (period : String) (today : Date)
    (pre post : List Row) (r : Row)
    (h : parseDate r.Date = none ∨ pyFloatL r.Amount.data = none) :
    get_summary (LedgerRead.ok (pre ++ r :: post)) period today =
      get_summary (LedgerRead.ok (pre ++ post)) period today := by
  show ((pre ++ r :: post).filter (keepRow period today)).foldl sumStep ([], 0) =
    ((pre ++ post).filter (keepRow period today)).foldl sumStep ([], 0)
  rcases h with hdate | hamt
  · have hkeep : keepRow period today r = false := by
      unfold keepRow
      rw [hdate]
    rw [List.filter_append, List.filter_append,
      List.filter_cons_of_neg (by simp [hkeep])]
  · have hs : ∀ acc, sumStep acc r = acc := by
      intro acc
      unfold sumStep
      rw [hamt]
    by_cases hkeep : keepRow period today r = true
    · rw [List.filter_append, List.filter_append, List.filter_cons_of_pos hkeep,
        List.foldl_append, List.foldl_append, List.foldl_cons, hs]
    · rw [List.filter_append, List.filter_append,
        List.filter_cons_of_neg (by simpa using hkeep)]

/-- C4 witness: a row with an unparseable date leaves the summary of the
remaining rows unchanged. -/
theorem C4_malformed_row_witness :
    get_summary (LedgerRead.ok ([⟨"2024-06-01", "Lunch", "10", "Food", "t1"⟩] ++
        ⟨"oops", "x", "5", "Food", "t2"⟩ :: [])) "today" ⟨2024, 6, 1⟩ =
      get_summary (LedgerRead.ok ([⟨"2024-06-01", "Lunch", "10", "Food", "t1"⟩] ++ []))
        "today" ⟨2024, 6, 1⟩ :=
  C4_malformed_row_skipped "today" ⟨2024, 6, 1⟩ _ _ _ (Or.inl (by decide))

/-- C8: when the ledger read fails - client unavailable or the read raising -
`get_summary` returns `([], 0)`, the same value as for an empty ledger, and
(being a total function into values) propagates no fault. -/
theorem C8_read_failure_empty (period : String) (today : Date) :
    get_summary LedgerRead.raised period today = ([], 0) ∧
    get_summary LedgerRead.unavailable period today = ([], 0) ∧
    get_summary (LedgerRead.ok []) period today = ([], 0) :=
  ⟨rfl, rfl, rfl⟩

/-- C9 counterexample: because every `+=` rounds to double precision, the
grand total need not equal the sum of the returned per-category amounts.
With amounts `10000000000000000`, `1`, `1` in categories `A`, `B`, `B`, the
total accumulates in row order to `1e16` (each `+ 1` rounds away, ties to
even), while the mapping holds `1e16` under `A` and `2` under `B`, summing
to `1e16 + 2`. -/
theorem C9_rounding_counterexample :
    (get_summary (LedgerRead.ok
      [⟨"2024-06-01", "big", "10000000000000000", "A", "t1"⟩,
       ⟨"2024-06-01", "one", "1", "B", "t2"⟩,
       ⟨"2024-06-01", "one", "1", "B", "t3"⟩]) "today" ⟨2024, 6, 1⟩).1 =
      [("A", 10000000000000000), ("B", 2)] ∧
    (get_summary (LedgerRead.ok
      [⟨"2024-06-01", "big", "10000000000000000", "A", "t1"⟩,
       ⟨"2024-06-01", "one", "1", "B", "t2"⟩,
       ⟨"2024-06-01", "one", "1", "B", "t3"⟩]) "today" ⟨2024, 6, 1⟩).2 =
      10000000000000000 ∧
    (get_summary (LedgerRead.ok
      [⟨"2024-06-01", "big", "10000000000000000", "A", "t1"⟩,
       ⟨"2024-06-01", "one", "1", "B", "t2"⟩,
       ⟨"2024-06-01", "one", "1", "B", "t3"⟩]) "today" ⟨2024, 6, 1⟩).2 ≠
      (((get_summary (LedgerRead.ok
        [⟨"2024-06-01", "big", "10000000000000000", "A", "t1"⟩,
         ⟨"2024-06-01", "one", "1", "B", "t2"⟩,
         ⟨"2024-06-01", "one", "1", "B", "t3"⟩]) "today" ⟨2024, 6, 1⟩).1).map
        Prod.snd).sum := by
  refine ⟨by with_unfolding_all rfl, by with_unfolding_all rfl, ?_⟩
  with_unfolding_all decide

/-- The grand total is the rounded accumulation, in row order, of exactly
the amounts of the retained rows whose `Amount` parses. -/
theorem sumStep_total_fold (l : List Row) (acc : List (String × ℚ) × ℚ) :
    (l.foldl sumStep acc).2 =
      (l.filterMap (fun r => pyFloatL r.Amount.data)).foldl fladd acc.2 := by
  induction l generalizing acc with
  | nil => rfl
  | cons r rest ih =>
      rw [List.foldl_cons]
      rcases hf : pyFloatL r.Amount.data with _ | a
      · have hstep : sumStep acc r = acc := by
          unfold sumStep
          rw [hf]
        rw [hstep, ih,
          @List.filterMap_cons_none Row ℚ (fun r => pyFloatL r.Amount.data) r rest hf]
      · have hstep : sumStep acc r = (insertAdd acc.1 r.Category a, fladd acc.2 a) := by
          unfold sumStep
          rw [hf]
        rw [hstep, ih,
          @List.filterMap_cons_some Row ℚ (fun r => pyFloatL r.Amount.data) r rest a hf,
          List.foldl_cons]

/-- Accumulating one more amount moves the seed. -/
theorem seedFold_cons (o : Option ℚ) (a : ℚ) (l : List ℚ) :
    seedFold o (a :: l) =
      seedFold (match o with | none => some a | some w => some (fladd w a)) l := by
  cases o with
  | none => rfl
  | some w => simp [seedFold, List.foldl_cons]

/-- `insertAdd` under the inserted key: a fresh key stores the amount, an
existing key gets a rounded addition. -/
theorem insertAdd_lookupCat_same (l : List (String × ℚ)) (k : String) (v : ℚ) :
    lookupCat (insertAdd l k v) k =
      match lookupCat l k with
      | none => some v
      | some w => some (fladd w v) := by
  induction l with
  | nil => simp [insertAdd, lookupCat]
  | cons p rest ih =>
      obtain ⟨k0, v0⟩ := p
      by_cases hk : k0 = k
      · subst hk
        simp [insertAdd, lookupCat]
      · simp [insertAdd, lookupCat, hk, ih]

/-- `insertAdd` leaves every other key unchanged. -/
theorem insertAdd_lookupCat_other (l : List (String × ℚ)) (k1 k : String) (v : ℚ)
    (h : k1 ≠ k) :
    lookupCat (insertAdd l k1 v) k = lookupCat l k := by
  induction l with
  | nil => simp [insertAdd, lookupCat, h]
  | cons p rest ih =>
      obtain ⟨k0, v0⟩ := p
      by_cases hk : k0 = k1
      · subst hk
        simp [insertAdd, lookupCat, h]
      · simp [insertAdd, lookupCat, hk, ih]

/-- Each category key holds the accumulation of exactly its own rows'
amounts. -/
theorem sumStep_lookup_fold (l : List Row) (acc : List (String × ℚ) × ℚ) (k : String) :
    lookupCat ((l.foldl sumStep acc).1) k =
      seedFold (lookupCat acc.1 k)
        (l.filterMap (fun r => if r.Category = k then pyFloatL r.Amount.data else none)) := by
  induction l generalizing acc with
  | nil =>
      rcases h0 : lookupCat acc.1 k with _ | w
      · simp [seedFold, h0]
      · simp [seedFold, h0]
  | cons r rest ih =>
      rw [List.foldl_cons]
      rcases hf : pyFloatL r.Amount.data with _ | a
      · have hstep : sumStep acc r = acc := by
          unfold sumStep
          rw [hf]
        have hnone : (if r.Category = k then pyFloatL r.Amount.data else none) = none := by
          by_cases hc : r.Category = k
          · rw [if_pos hc, hf]
          · rw [if_neg hc]
        rw [hstep, ih,
          @List.filterMap_cons_none Row ℚ
            (fun r => if r.Category = k then pyFloatL r.Amount.data else none) r rest hnone]
      · have hstep : sumStep acc r = (insertAdd acc.1 r.Category a, fladd acc.2 a) := by
          unfold sumStep
          rw [hf]
        rw [hstep]
        have ih2 := ih (insertAdd acc.1 r.Category a, fladd acc.2 a)
        by_cases hc : r.Category = k
        · have hsome : (if r.Category = k then pyFloatL r.Amount.data else none) = some a := by
            rw [if_pos hc, hf]
          rw [ih2,
            @List.filterMap_cons_some Row ℚ
              (fun r => if r.Category = k then pyFloatL r.Amount.data else none) r rest a hsome,
            seedFold_cons]
          have hlook : lookupCat ((insertAdd acc.1 r.Category a, fladd acc.2 a) :
              List (String × ℚ) × ℚ).1 k =
              match lookupCat acc.1 k with
              | none => some a
              | some w => some (fladd w a) := by
            show lookupCat (insertAdd acc.1 r.Category a) k = _
            rw [hc]
            exact insertAdd_lookupCat_same acc.1 k a
          rw [hlook]
        · have hnone : (if r.Category = k then pyFloatL r.Amount.data else none) = none := by
            rw [if_neg hc]
          rw [ih2,
            @List.filterMap_cons_none Row ℚ
              (fun r => if r.Category = k then pyFloatL r.Amount.data else none) r rest hnone]
          have hlook : lookupCat ((insertAdd acc.1 r.Category a, fladd acc.2 a) :
              List (String × ℚ) × ℚ).1 k = lookupCat acc.1 k := by
            show lookupCat (insertAdd acc.1 r.Category a) k = _
            exact insertAdd_lookupCat_other acc.1 r.Category k a hc
          rw [hlook]

/-- C9 (amended): every retained row whose amount parses contributes exactly
once to the grand total - which is the rounded accumulation of those amounts
in row order - and exactly once to its own category key, whose value is the
rounded accumulation of that category's amounts; but since each addition
rounds to double precision, the grand total need not equal the sum of the
per-category values. -/
theorem C9_total_accumulation (rows : List Row) (period : String) (today : Date) :
    (get_summary (LedgerRead.ok rows) period today).2 =
      ((rows.filter (keepRow period today)).filterMap
        (fun r => pyFloatL r.Amount.data)).foldl fladd 0 ∧
    ∀ k : String,
      lookupCat (get_summary (LedgerRead.ok rows) period today).1 k =
        seedFold none ((rows.filter (keepRow period today)).filterMap
          (fun r => if r.Category = k then pyFloatL r.Amount.data else none)) := by
  constructor
  · show ((rows.filter (keepRow period today)).foldl sumStep ([], 0)).2 = _
    rw [sumStep_total_fold]
  · intro k
    show lookupCat ((rows.filter (keepRow period today)).foldl sumStep ([], 0)).1 k = _
    rw [sumStep_lookup_fold]
    rfl
